import Mathlib

/-!
Verification of the repo2prompt pipeline (src/repo2prompt_async.py, the
simple version, and src/repo2prompt_async_prd.py, the production version)
against its natural-language specification.

The Python sources are shallowly embedded. Pure string manipulation is
translated to Lean functions on `String` and `List Char`. The network is an
explicit oracle: a script of transport events for the retrying fetcher, a
finite tree of remote listings and decoded file payloads for the tree
walker, and `Except` outcomes for whole collaborator steps of the
assembler. The `asyncio` recursion of the tree walker is embedded as a
depth-fuelled structural recursion: any fuel larger than the depth of the
remote tree reproduces the behaviour of the program, and the stated
properties hold for every fuel.
-/

/- ===================== Python string primitives ===================== -/

/-- Python `str.split(sep)` with an explicit separator, on character lists:
splitting the empty string yields one empty segment, and consecutive
separators yield empty segments in between. -/
def pySplit (sep : Char) : List Char → List (List Char)
  | [] => [[]]
  | c :: cs =>
    if c = sep then [] :: pySplit sep cs
    else
      match pySplit sep cs with
      | [] => [[c]]
      | s :: rest => (c :: s) :: rest

/-- Python `str.strip(c)`: remove every leading and trailing occurrence of
the character `c` (trailing occurrences first, then leading ones; the two
passes commute). -/
def pyStrip (c : Char) (l : List Char) : List Char :=
  ((l.reverse.dropWhile (fun x => x == c)).reverse).dropWhile (fun x => x == c)

/-- Scanner for the `://` mark separating a URL scheme from its authority;
returns the characters after the mark when it is present. -/
def afterSchemeMark : List Char → Option (List Char)
  | [] => none
  | ':' :: '/' :: '/' :: rest => some rest
  | _ :: rest => afterSchemeMark rest

/-- Path component of `urllib.parse.urlparse`, modelled for the URL shapes
the program receives: the fragment (after the first `#`) and the query
(after the first `?`) are removed, and for an absolute URL the
`scheme://netloc` part is dropped, the path beginning at the first `/`
after the authority. A URL without a `://` mark is taken as a bare path. -/
def urlparsePath (url : String) : String :=
  let cs := (url.toList.takeWhile (fun c => c != '#')).takeWhile (fun c => c != '?')
  match afterSchemeMark cs with
  | some rest => String.mk (rest.dropWhile (fun c => c != '/'))
  | none => String.mk cs

/-- `parse_github_url` from both sources: take the URL path, strip `/` from
both ends, split on `/`; accept exactly when at least two segments remain,
returning the first two (`path_segments[0]`, `path_segments[1]`), and
reject with `ValueError` otherwise. -/
def parse_github_url (url : String) : Except String (String × String) :=
  if 2 ≤ (pySplit '/' (pyStrip '/' (urlparsePath url).toList)).length then
    Except.ok
      (String.mk ((pySplit '/' (pyStrip '/' (urlparsePath url).toList)).getD 0 []),
       String.mk ((pySplit '/' (pyStrip '/' (urlparsePath url).toList)).getD 1 []))
  else
    Except.error "Invalid GitHub URL provided!"

/- ===================== the retrying fetcher ===================== -/

/-- An HTTP response as seen by `fetch_repo_content` in the production
version: its status code, an optional `Retry-After` header (modelled as the
numeric value the code converts it to), and the decoded JSON body used on
status 200. -/
structure HttpResponse where
  status : Nat
  retryAfter : Option Nat
  body : String
deriving DecidableEq

/-- One event at the transport layer, consumed by one attempt of the body
of `fetch_repo_content`: either a response arrives, or the request fails
with a connection error or timeout (`aiohttp.ClientError` or
`asyncio.TimeoutError` before any status is available). -/
inductive AttemptEvent where
  | response (r : HttpResponse)
  | transportFault
deriving DecidableEq

/-- Faults raised by one attempt of the body of `fetch_repo_content`. In
the source, every one of them is raised as (a subclass of)
`aiohttp.ClientError` and is therefore retryable by the backoff decorator,
including the 404 case (`raise aiohttp.ClientError("Resource not found.")`)
and the `raise_for_status` case. -/
inductive FetchErr where
  | transport
  | rateLimit
  | notFound
  | httpStatus (code : Nat)
deriving DecidableEq

inductive FetchOutcome where
  | success (body : String)
  | failure (e : FetchErr)
  | outOfEvents
deriving DecidableEq

/-- Outcome of the status dispatch performed by one attempt of the body of
`fetch_repo_content` (production version, lines 46-62). -/
inductive AttemptStep where
  | done (body : String)
  | sleepAndReinvoke (seconds : Nat)
  | raiseRetryable (e : FetchErr)

/-- Status dispatch of `fetch_repo_content` on one received response:
200 returns the body; 403 and 429 sleep for the `Retry-After` value and
re-invoke the whole decorated fetch when the header is present and raise a
rate-limit fault otherwise; 404 raises a not-found fault; anything else
raises through `raise_for_status`. -/
def attemptStep (r : HttpResponse) : AttemptStep :=
  if r.status = 200 then AttemptStep.done r.body
  else if r.status = 403 ∨ r.status = 429 then
    match r.retryAfter with
    | some seconds => AttemptStep.sleepAndReinvoke seconds
    | none => AttemptStep.raiseRetryable FetchErr.rateLimit
  else if r.status = 404 then AttemptStep.raiseRetryable FetchErr.notFound
  else AttemptStep.raiseRetryable (FetchErr.httpStatus r.status)

/-- Budget bookkeeping of the nested `backoff` decorators when an attempt
raises a retryable fault: the innermost decorated invocation whose try
budget is at least 2 retries (its budget drops by one) after every
exhausted inner invocation re-raises the fault outward; when every budget
on the stack is exhausted the fault is surfaced to the caller. -/
def shrink : List Nat → Option (List Nat)
  | [] => none
  | t :: rest => if 2 ≤ t then some ((t - 1) :: rest) else shrink rest

/-- Execution of the decorated `fetch_repo_content` against a script of
transport events. The stack holds the remaining try budget of every active
backoff-decorated invocation, innermost first; a fresh invocation starts
with 8 tries (`max_tries=8`). Each consumed event is one attempt of the
body; `sleeps` records the seconds slept on the `Retry-After` path, which
pushes a fresh invocation (the code re-invokes the decorated function from
inside the body). Backoff delay durations are not modelled, only attempt
counts and `Retry-After` sleeps. -/
def fetchRun : List AttemptEvent → List Nat → Nat → List Nat → FetchOutcome × Nat × List Nat
  | [], _, attempts, sleeps => (FetchOutcome.outOfEvents, attempts, sleeps)
  | ev :: rest, stack, attempts, sleeps =>
    match ev with
    | AttemptEvent.transportFault =>
      match shrink stack with
      | some stack2 => fetchRun rest stack2 (attempts + 1) sleeps
      | none => (FetchOutcome.failure FetchErr.transport, attempts + 1, sleeps)
    | AttemptEvent.response r =>
      match attemptStep r with
      | AttemptStep.done b => (FetchOutcome.success b, attempts + 1, sleeps)
      | AttemptStep.sleepAndReinvoke seconds =>
        fetchRun rest (8 :: stack) (attempts + 1) (sleeps ++ [seconds])
      | AttemptStep.raiseRetryable e =>
        match shrink stack with
        | some stack2 => fetchRun rest stack2 (attempts + 1) sleeps
        | none => (FetchOutcome.failure e, attempts + 1, sleeps)

/-- `fetch_repo_content` of the production version: one top-level call of
the backoff-decorated fetch, returning the outcome together with the
number of attempts made and the recorded `Retry-After` sleeps. -/
def fetch_repo_content (script : List AttemptEvent) : FetchOutcome × Nat × List Nat :=
  fetchRun script [8] 0 []

/- ===================== the tree walker ===================== -/

/-- One entry of the remote repository tree as served by the contents API:
a file with its decoded textual payload (the output of `get_file_content`,
whose base64 branch decodes to the stored text), or a directory with its
listing, in listing order. -/
inductive FsEntry where
  | file (name : String) (content : String)
  | dir (name : String) (children : List FsEntry)

def entryName : FsEntry → String
  | FsEntry.file n _ => n
  | FsEntry.dir n _ => n

/-- Python `"    " * indent`. -/
def indentStr (indent : Nat) : String :=
  String.join (List.replicate indent "    ")

/-- Contents-API path of a listing entry: the parent path joined with `/`;
entries of the root listing (fetched at path `""`) carry their bare name. -/
def joinPath (parent name : String) : String :=
  if parent = "" then name else parent ++ "/" ++ name

/-- Exclusion test of both walkers: `".github" in item["path"].split("/")`. -/
def isExcluded (path : String) : Bool :=
  (pySplit '/' path.toList).contains ".github".toList

/-- Extension allow-list of both walkers (`item["name"].endswith(...)`). -/
def allowedExtensions : List String :=
  [".py", ".ipynb", ".html", ".css", ".js", ".jsx", ".rst", ".md"]

def isAllowListed (name : String) : Bool :=
  allowedExtensions.any (fun e => e.toList.isSuffixOf name.toList)

/-- One pass of the item loop of `build_directory_tree` in the production
version (lines 84-107), parameterised by the sub-walk used for directory
entries. Result: the tree text of this level (directory header lines, file
lines and, for allow-listed files, the fenced content block placed under
the file line), the pending sub-walk results in task-creation order, and
the content-fetch paths issued at this level. Excluded entries contribute
nothing at all. -/
def prdLevel (subWalk : List FsEntry → String → Nat → String × List String) :
    List FsEntry → String → Nat → String × List (String × List String) × List String
  | [], _, _ => ("", [], [])
  | e :: rest, path, indent =>
    let p := joinPath path (entryName e)
    let r := prdLevel subWalk rest path indent
    if isExcluded p then r
    else
      match e with
      | FsEntry.dir n cs =>
        (indentStr indent ++ "[" ++ n ++ "/]\n" ++ r.1,
         subWalk cs p (indent + 1) :: r.2.1,
         r.2.2)
      | FsEntry.file n c =>
        if isAllowListed n then
          (indentStr indent ++ n ++ "\n"
             ++ indentStr (indent + 1) ++ "```" ++ c ++ "```" ++ "\n" ++ r.1,
           r.2.1,
           p :: r.2.2)
        else
          (indentStr indent ++ n ++ "\n" ++ r.1, r.2.1, r.2.2)

/-- `build_directory_tree` of the production version: fetch the listing at
`path`, run the item loop, then await every pending subdirectory task in
creation order and append each awaited tree text after the whole level
(`for task in tasks: tree_str += await task`, lines 109-110). The second
component is the list of fetched paths (the listing fetch at `path`, the
content fetches of the level, and all fetches of the sub-walks). The `fuel`
argument bounds the recursion depth of the embedding; any fuel larger than
the tree depth reproduces the program. -/
def build_directory_tree_prd : Nat → List FsEntry → String → Nat → String × List String
  | 0, _, path, _ => ("", [path])
  | fuel + 1, l, path, indent =>
    let r := prdLevel (fun cs p i => build_directory_tree_prd fuel cs p i) l path indent
    (r.1 ++ String.join (r.2.1.map Prod.fst),
     path :: (r.2.2 ++ (r.2.1.map Prod.snd).flatten))

/-- One pass of the item loop of `build_directory_tree` in the simple
version (lines 40-56), parameterised by the sub-walk. For a directory the
sub-walk is awaited inline and its tree text spliced directly after the
directory line, while its collected contents are discarded
(`sub_tree_str, _ = await build_directory_tree(...)`); for an allow-listed
file a content-fetch task is appended, whose decoded content lands in the
second component in task-creation order. The third component is the fetch
paths issued (content fetches of this level plus everything the sub-walks
fetched). -/
def asyncLevel (subWalk : List FsEntry → String → Nat → String × List String × List String) :
    List FsEntry → String → Nat → String × List String × List String
  | [], _, _ => ("", [], [])
  | e :: rest, path, indent =>
    let p := joinPath path (entryName e)
    let r := asyncLevel subWalk rest path indent
    if isExcluded p then r
    else
      match e with
      | FsEntry.dir n cs =>
        (indentStr indent ++ "[" ++ n ++ "/]\n" ++ (subWalk cs p (indent + 1)).1 ++ r.1,
         r.2.1,
         (subWalk cs p (indent + 1)).2.2 ++ r.2.2)
      | FsEntry.file n c =>
        if isAllowListed n then
          (indentStr indent ++ n ++ "\n" ++ r.1, c :: r.2.1, p :: r.2.2)
        else
          (indentStr indent ++ n ++ "\n" ++ r.1, r.2.1, r.2.2)

/-- `build_directory_tree` of the simple version: fetch the listing at
`path`, run the item loop, gather the content-fetch tasks in creation
order. Returns the tree text, the decoded contents of the allow-listed
files of this listing (contents collected inside subdirectories are
discarded by the caller of the recursion, see `asyncLevel`), and the list
of fetched paths starting with the listing fetch at `path`. -/
def build_directory_tree_async : Nat → List FsEntry → String → Nat → String × List String × List String
  | 0, _, path, _ => ("", [], [path])
  | fuel + 1, l, path, indent =>
    let r := asyncLevel (fun cs p i => build_directory_tree_async fuel cs p i) l path indent
    (r.1, r.2.1, path :: r.2.2)

/-- Spec-side reference for C1: the tree text of a strictly sequential
depth-first traversal in listing order, with the same line formats as the
production walker (header line for a directory immediately followed by its
recursively expanded block, file line followed by its fenced content block
when allow-listed). -/
def dfsLevel (subWalk : List FsEntry → String → Nat → String) :
    List FsEntry → String → Nat → String
  | [], _, _ => ""
  | e :: rest, path, indent =>
    let p := joinPath path (entryName e)
    (if isExcluded p then ""
     else
       match e with
       | FsEntry.dir n cs =>
         indentStr indent ++ "[" ++ n ++ "/]\n" ++ subWalk cs p (indent + 1)
       | FsEntry.file n c =>
         indentStr indent ++ n ++ "\n"
           ++ (if isAllowListed n then
                 indentStr (indent + 1) ++ "```" ++ c ++ "```" ++ "\n"
               else ""))
    ++ dfsLevel subWalk rest path indent

def dfs_sequential_tree : Nat → List FsEntry → String → Nat → String
  | 0, _, _, _ => ""
  | fuel + 1, l, path, indent =>
    dfsLevel (fun cs p i => dfs_sequential_tree fuel cs p i) l path indent

/-- Listing used as failing input for C1: a directory entry followed by a
file entry in the same listing. -/
def exDirThenFile : List FsEntry :=
  [FsEntry.dir "sub" [FsEntry.file "b.txt" ""], FsEntry.file "a.txt" ""]

/- ===================== the assembler ===================== -/

/-- Steps of `retrieve_github_repo_info` (production version) that issue
network traffic: the pre-flight rate-limit check, the README fetch, and
the directory-tree walk. -/
inductive PipelineStep where
  | rateLimitCheck
  | readmeFetch
  | treeWalk
deriving DecidableEq

/-- `retrieve_github_repo_info` of the production version (lines 114-161),
with the three network-dependent collaborators as oracle outcomes:
`rateGuard` is the pre-flight `fetch_rate_limit_status` step (its quota
sleep is time-only and not modelled), `readme` the fetched-and-decoded
README, `tree` the tree-walk result. Control flow follows the source: the
first try block runs the rate guard (token present) or a warning (token
absent), binds the semaphore, then fetches the README when a token is
present and raises `ValueError` otherwise; its except clause formats the
caught exception. The second try block walks the tree when a token is
present and raises `ValueError` otherwise. When the rate guard raises, the
semaphore assignment is never reached, so the second block fails with
`NameError: name \x27semaphore\x27 is not defined` before any walk starts.
Returns the document and the list of performed network steps. -/
def retrieve_github_repo_info_prd (token : Option String) (rateGuard : Except String Unit)
    (readme : Except String String) (tree : Except String String) :
    String × List PipelineStep :=
  match token with
  | none =>
    ("Failed to retrieve README.md: Token is required for fetching repo content.\n\n"
       ++ "Failed to build directory tree: Token is required for building directory tree.\n",
     [])
  | some _ =>
    match rateGuard with
    | Except.error e =>
      ("Failed to retrieve README.md: " ++ e ++ "\n\n"
         ++ "Failed to build directory tree: name \x27semaphore\x27 is not defined\n",
       [PipelineStep.rateLimitCheck])
    | Except.ok _ =>
      let s1 := match readme with
        | Except.ok r => "README.md:\n```\n" ++ r ++ "\n```\n\n"
        | Except.error e => "Failed to retrieve README.md: " ++ e ++ "\n\n"
      let s2 := match tree with
        | Except.ok d => "Directory Structure:\n" ++ d ++ "\n"
        | Except.error e => "Failed to build directory tree: " ++ e ++ "\n"
      (s1 ++ s2,
       [PipelineStep.rateLimitCheck, PipelineStep.readmeFetch, PipelineStep.treeWalk])

/-- Spec-side decomposition of the production document: the README section
as the Assembler description has it (README text fenced on success, a
diagnostic line carrying the failure description otherwise). -/
def prdReadmeSection : Except String String → String
  | Except.ok r => "README.md:\n```\n" ++ r ++ "\n```\n\n"
  | Except.error e => "Failed to retrieve README.md: " ++ e ++ "\n\n"

/-- Spec-side decomposition of the production document: the tree section
(tree text on success, a diagnostic line carrying the failure description
otherwise). -/
def prdTreeSection : Except String String → String
  | Except.ok d => "Directory Structure:\n" ++ d ++ "\n"
  | Except.error e => "Failed to build directory tree: " ++ e ++ "\n"

/-- `retrieve_github_repo_info` of the simple version (lines 64-85): the
README step is guarded by try/except with a fixed fallback line, the tree
walk is not guarded at all, so a tree failure propagates as an exception
and no document is returned (modelled as `Except.error`); on success the
collected file contents are appended after the tree section, each
independently fenced. -/
def retrieve_github_repo_info_async (readme : Except String String)
    (treeAndContents : Except String (String × List String)) : Except String String :=
  let s1 := match readme with
    | Except.ok r => "README.md:\n```\n" ++ r ++ "\n```\n\n"
    | Except.error _ => "README.md: Not found or error fetching README\n\n"
  match treeAndContents with
  | Except.error e => Except.error e
  | Except.ok (tree, contents) =>
    Except.ok (s1 ++ "Directory Structure:\n" ++ tree ++ "\n"
      ++ String.join (contents.map (fun c => "\n" ++ "```" ++ c ++ "```" ++ "\n")))

/-- Repository used as failing input for C2: a single allow-listed file
inside a subdirectory. -/
def exSubContents : List FsEntry :=
  [FsEntry.dir "sub" [FsEntry.file "b.md" "B"]]

/-- Repository used to witness C9: two subdirectories, hence two
concurrently scheduled sub-walk tasks. -/
def exTwoDirs : List FsEntry :=
  [FsEntry.dir "da" [FsEntry.file "x.txt" ""], FsEntry.dir "db" [FsEntry.file "y.txt" ""]]

/-- Tree texts of the pending subdirectory tasks of one level of the
production walker, in task-creation order (the order the directories
appear in the listing). -/
def subTreeTexts (fuel : Nat) (l : List FsEntry) (path : String) (indent : Nat) : List String :=
  ((prdLevel (fun cs p i => build_directory_tree_prd fuel cs p i) l path indent).2.1).map Prod.fst

/-- Model of the await loop `for task in tasks: tree_str += await task`
under an arbitrary completion order: `completed` lists the pairs of task
index and task result in whatever order the scheduler finished them;
awaiting the tasks in creation order retrieves, for each index in turn,
the result recorded for that index. -/
def awaitInCreationOrder (results : List String) (completed : List (Nat × String)) : String :=
  String.join ((List.range results.length).map
    (fun i => (((completed.filter (fun q => q.1 == i)).map Prod.snd).headD "")))

/- ===================== theorems ===================== -/

/- ===================== helper lemmas for C7 ===================== -/

theorem pySplit_ne_nil (sep : Char) (l : List Char) : pySplit sep l ≠ [] := by
  cases l with
  | nil => simp [pySplit]
  | cons c cs =>
    by_cases h : c = sep
    · simp [pySplit, h]
    · simp only [pySplit, if_neg h]
      cases hs : pySplit sep cs <;> simp

theorem dropWhile_head_false (p : Char → Bool) :
    ∀ (l : List Char) (x : Char) (xs : List Char), l.dropWhile p = x :: xs → p x = false := by
  intro l
  induction l with
  | nil => intro x xs h; simp [List.dropWhile] at h
  | cons a as ih =>
    intro x xs h
    rw [List.dropWhile_cons] at h
    by_cases hp : p a = true
    · rw [if_pos hp] at h
      exact ih x xs h
    · rw [if_neg hp] at h
      cases h
      simpa using hp

/-- C7 counterexample: the locator `https://github.com/a//b` is accepted by
`parse_github_url` (its stripped path splits into the three segments
`a`, empty, `b`), yet the returned repository name is the empty string,
contradicting the claim that an accepted locator never yields an empty
owner or name. -/
theorem parse_github_url_empty_repo_name :
    parse_github_url "https://github.com/a//b" = Except.ok ("a", "") := by
  rfl

/-- C7 amended: `parse_github_url` either rejects the locator with a
validation fault or returns an owner and a repository name, and the owner
of every accepted locator is a non-empty string; the repository name,
however, may be empty (exactly when the second segment of the stripped URL
path is empty, as with consecutive slashes). -/
theorem parse_github_url_owner_nonempty (url o n : String)
    (h : parse_github_url url = Except.ok (o, n)) : o ≠ "" := by
  unfold parse_github_url at h
  rcases hl : pyStrip '/' (urlparsePath url).toList with _ | ⟨x, xs⟩
  · rw [hl] at h
    simp [pySplit] at h
  · rw [hl] at h
    have hx : (x == '/') = false := by
      unfold pyStrip at hl
      exact dropWhile_head_false _ _ x xs hl
    have hxne : ¬ x = '/' := by simpa using hx
    rcases hsp : pySplit '/' xs with _ | ⟨s, rest⟩
    · exact absurd hsp (pySplit_ne_nil '/' xs)
    · have hform : pySplit '/' (x :: xs) = (x :: s) :: rest := by
        simp [pySplit, hxne, hsp]
      rw [hform] at h
      by_cases h2 : 2 ≤ ((x :: s) :: rest).length
      · rw [if_pos h2] at h
        have ho : o = String.mk (x :: s) := by
          cases h
          rfl
        subst ho
        intro hc
        simpa using congrArg String.data hc
      · rw [if_neg h2] at h
        exact Except.noConfusion h

theorem parse_github_url_owner_nonempty_witness : ("nomic-ai" : String) ≠ "" :=
  parse_github_url_owner_nonempty "https://github.com/nomic-ai/nomic/tree/main"
    "nomic-ai" "nomic" (by rfl)

/- ===================== helper lemmas for C3, C4, C5 ===================== -/

theorem fetchRun_faults_within_budget :
    ∀ (count k : Nat), count < k →
      ∀ (rest : List AttemptEvent) (a : Nat) (s : List Nat),
        fetchRun (List.replicate count AttemptEvent.transportFault ++ rest) [k] a s
          = fetchRun rest [k - count] (a + count) s := by
  intro count
  induction count with
  | zero => intro k _ rest a s; simp
  | succ m ih =>
    intro k hk rest a s
    have hk2 : 2 ≤ k := by omega
    have hshrink : shrink [k] = some [k - 1] := by simp [shrink, hk2]
    rw [List.replicate_succ, List.cons_append]
    simp only [fetchRun, hshrink]
    rw [ih (k - 1) (by omega) rest (a + 1) s,
      show k - 1 - m = k - (m + 1) from by omega,
      show a + 1 + m = a + (m + 1) from by omega]

theorem fetchRun_faults_exhaust :
    ∀ (k m a : Nat) (s : List Nat), 1 ≤ k →
      fetchRun (List.replicate (k + m) AttemptEvent.transportFault) [k] a s
        = (FetchOutcome.failure FetchErr.transport, a + k, s) := by
  intro k
  induction k with
  | zero => intro m a s h; omega
  | succ j ih =>
    intro m a s _
    rw [show j + 1 + m = (j + m) + 1 from by omega, List.replicate_succ]
    by_cases hj : 1 ≤ j
    · have hshrink : shrink [j + 1] = some [j] := by
        simp [shrink, show 2 ≤ j + 1 from by omega]
      simp only [fetchRun, hshrink]
      rw [ih m (a + 1) s hj, show a + 1 + j = a + (j + 1) from by omega]
    · have hj0 : j = 0 := by omega
      subst hj0
      have hshrink : shrink [1] = none := by simp [shrink]
      simp only [fetchRun, hshrink]

theorem fetchRun_retry_after_loop (n : Nat) (b : String) :
    ∀ (k : Nat) (stack : List Nat) (a : Nat) (s : List Nat),
      fetchRun (List.replicate k (AttemptEvent.response (HttpResponse.mk 429 (some n) ""))
          ++ [AttemptEvent.response (HttpResponse.mk 200 none b)]) stack a s
        = (FetchOutcome.success b, a + k + 1, s ++ List.replicate k n) := by
  intro k
  induction k with
  | zero =>
    intro stack a s
    simp [fetchRun, attemptStep]
  | succ m ih =>
    intro stack a s
    rw [List.replicate_succ, List.cons_append]
    simp only [fetchRun, attemptStep]
    norm_num
    rw [ih (8 :: stack) (a + 1) (s ++ [n])]
    simp only [Prod.mk.injEq, List.append_assoc, List.singleton_append]
    refine ⟨trivial, by omega, ?_⟩
    rw [List.replicate_succ]

/-- C3: evaluation of the code at the failing input. The claim says a 404
response raises a non-retryable not-found fault that is surfaced to the
caller immediately; in the code the 404 is raised as the generic
`aiohttp.ClientError`, which is exactly what the outer backoff decorator
retries on, so a 404 followed by a 200 is retried into a success on the
second attempt, and a persistent 404 is retried through all 8 attempts
before the not-found fault is surfaced. -/
theorem notFound_retried_by_backoff :
    fetch_repo_content [AttemptEvent.response (HttpResponse.mk 404 none ""),
        AttemptEvent.response (HttpResponse.mk 200 none "x")]
      = (FetchOutcome.success "x", 2, [])
    ∧ fetch_repo_content (List.replicate 8 (AttemptEvent.response (HttpResponse.mk 404 none "")))
      = (FetchOutcome.failure FetchErr.notFound, 8, []) := by
  constructor <;> rfl

/-- C4: the outer retry tier of `fetch_repo_content` makes at most 8
attempts on transport-layer faults: a transport that fails transiently
exactly `count ≤ 7` times and then succeeds yields a successful fetch with
`count + 1` attempts recorded and no rate-limit sleeps, and a transport
that always fails stops after exactly 8 attempts and surfaces the
transport fault. -/
theorem fetch_retry_bound (count m : Nat) (b : String) (h : count ≤ 7) :
    fetch_repo_content (List.replicate count AttemptEvent.transportFault
        ++ [AttemptEvent.response (HttpResponse.mk 200 none b)])
      = (FetchOutcome.success b, count + 1, [])
    ∧ fetch_repo_content (List.replicate (8 + m) AttemptEvent.transportFault)
      = (FetchOutcome.failure FetchErr.transport, 8, []) := by
  constructor
  · unfold fetch_repo_content
    rw [fetchRun_faults_within_budget count 8 (by omega)]
    simp [fetchRun, attemptStep]
  · unfold fetch_repo_content
    rw [fetchRun_faults_exhaust 8 m 0 [] (by omega)]

theorem fetch_retry_bound_witness :
    fetch_repo_content (List.replicate 3 AttemptEvent.transportFault
        ++ [AttemptEvent.response (HttpResponse.mk 200 none "x")])
      = (FetchOutcome.success "x", 4, [])
    ∧ fetch_repo_content (List.replicate 8 AttemptEvent.transportFault)
      = (FetchOutcome.failure FetchErr.transport, 8, []) := by
  have h := fetch_retry_bound 3 0 "x" (by omega)
  simpa using h

/-- C5: on a 403 or 429 response with a `Retry-After` value present, the
fetch sleeps that many seconds and re-invokes the same decorated fetch, an
inner retry tier with no bound on its attempt count (any number `k` of
consecutive rate-limited responses with the header is followed through,
each recording its sleep, independent of the outer budget of 8); with the
header absent, a rate-limit fault is raised that propagates to the outer
backoff tier, which retries it (a following 200 succeeds on attempt 2) and
surfaces it after exhausting its 8 tries. -/
theorem fetch_rate_limit_paths (k n : Nat) (b : String) :
    fetch_repo_content (List.replicate k (AttemptEvent.response (HttpResponse.mk 429 (some n) ""))
        ++ [AttemptEvent.response (HttpResponse.mk 200 none b)])
      = (FetchOutcome.success b, k + 1, List.replicate k n)
    ∧ fetch_repo_content [AttemptEvent.response (HttpResponse.mk 403 none ""),
        AttemptEvent.response (HttpResponse.mk 200 none b)]
      = (FetchOutcome.success b, 2, [])
    ∧ fetch_repo_content (List.replicate 8 (AttemptEvent.response (HttpResponse.mk 403 none "")))
      = (FetchOutcome.failure FetchErr.rateLimit, 8, []) := by
  refine ⟨?_, ?_, ?_⟩
  · unfold fetch_repo_content
    rw [fetchRun_retry_after_loop n b k [8] 0 []]
    simp
  · rfl
  · rfl

/-- C1: evaluation of the code at the failing input. The claim says the
tree text of `build_directory_tree` places the expanded descendants of
every directory as a contiguous block immediately after the directory
header line, matching a strictly sequential depth-first traversal. The
production walker instead awaits the pending subdirectory tasks only after
emitting every line of the current level, so with the listing
`[dir sub, file a.txt]` the line for `a.txt` precedes the descendants of
`sub` and the produced text differs from the sequential depth-first text. -/
theorem prd_tree_not_depth_first :
    (build_directory_tree_prd 2 exDirThenFile "" 0).1 = "[sub/]\na.txt\n    b.txt\n"
    ∧ dfs_sequential_tree 2 exDirThenFile "" 0 = "[sub/]\n    b.txt\na.txt\n"
    ∧ (build_directory_tree_prd 2 exDirThenFile "" 0).1 ≠ dfs_sequential_tree 2 exDirThenFile "" 0 := by
  refine ⟨rfl, rfl, ?_⟩
  decide

/- ===================== helper lemmas for C6 ===================== -/

theorem prdLevel_skip_excluded
    (subWalk : List FsEntry → String → Nat → String × List String)
    (e : FsEntry) (rest : List FsEntry) (path : String) (indent : Nat)
    (hx : isExcluded (joinPath path (entryName e)) = true) :
    prdLevel subWalk (e :: rest) path indent = prdLevel subWalk rest path indent := by
  simp [prdLevel, hx]

theorem asyncLevel_skip_excluded
    (subWalk : List FsEntry → String → Nat → String × List String × List String)
    (e : FsEntry) (rest : List FsEntry) (path : String) (indent : Nat)
    (hx : isExcluded (joinPath path (entryName e)) = true) :
    asyncLevel subWalk (e :: rest) path indent = asyncLevel subWalk rest path indent := by
  simp [asyncLevel, hx]

theorem prdLevel_fetch_pure
    (subWalk : List FsEntry → String → Nat → String × List String)
    (hsub : ∀ cs p i, isExcluded p = false →
      ∀ q ∈ (subWalk cs p i).2, isExcluded q = false) :
    ∀ (l : List FsEntry) (path : String) (indent : Nat),
      (∀ q ∈ (prdLevel subWalk l path indent).2.2, isExcluded q = false)
      ∧ (∀ s ∈ (prdLevel subWalk l path indent).2.1, ∀ q ∈ s.2, isExcluded q = false) := by
  intro l
  induction l with
  | nil => intro path indent; simp [prdLevel]
  | cons e rest ih =>
    intro path indent
    rcases ih path indent with ⟨ih1, ih2⟩
    by_cases hx : isExcluded (joinPath path (entryName e)) = true
    · rw [prdLevel_skip_excluded subWalk e rest path indent hx]
      exact ⟨ih1, ih2⟩
    · have hxf : isExcluded (joinPath path (entryName e)) = false := by
        simpa using hx
      cases e with
      | dir nm cs =>
        have hxf2 : isExcluded (joinPath path nm) = false := by
          simpa [entryName] using hxf
        have hunf : prdLevel subWalk (FsEntry.dir nm cs :: rest) path indent
            = (indentStr indent ++ "[" ++ nm ++ "/]\n"
                 ++ (prdLevel subWalk rest path indent).1,
               subWalk cs (joinPath path nm) (indent + 1)
                 :: (prdLevel subWalk rest path indent).2.1,
               (prdLevel subWalk rest path indent).2.2) := by
          simp [prdLevel, entryName, hxf2]
        rw [hunf]
        refine ⟨ih1, ?_⟩
        intro s hs
        rcases List.mem_cons.mp hs with hseq | hs2
        · subst hseq
          exact hsub cs (joinPath path nm) (indent + 1) hxf2
        · exact ih2 s hs2
      | file nm c =>
        have hxf2 : isExcluded (joinPath path nm) = false := by
          simpa [entryName] using hxf
        by_cases ha : isAllowListed nm = true
        · have hunf : prdLevel subWalk (FsEntry.file nm c :: rest) path indent
              = (indentStr indent ++ nm ++ "\n"
                   ++ indentStr (indent + 1) ++ "```" ++ c ++ "```" ++ "\n"
                   ++ (prdLevel subWalk rest path indent).1,
                 (prdLevel subWalk rest path indent).2.1,
                 joinPath path nm :: (prdLevel subWalk rest path indent).2.2) := by
            simp [prdLevel, entryName, hxf2, ha]
          rw [hunf]
          refine ⟨?_, ih2⟩
          intro q hq
          rcases List.mem_cons.mp hq with hqeq | hq2
          · subst hqeq
            exact hxf2
          · exact ih1 q hq2
        · have haf : isAllowListed nm = false := by simpa using ha
          have hunf : prdLevel subWalk (FsEntry.file nm c :: rest) path indent
              = (indentStr indent ++ nm ++ "\n" ++ (prdLevel subWalk rest path indent).1,
                 (prdLevel subWalk rest path indent).2.1,
                 (prdLevel subWalk rest path indent).2.2) := by
            simp [prdLevel, entryName, hxf2, haf]
          rw [hunf]
          exact ⟨ih1, ih2⟩

theorem asyncLevel_fetch_pure
    (subWalk : List FsEntry → String → Nat → String × List String × List String)
    (hsub : ∀ cs p i, isExcluded p = false →
      ∀ q ∈ (subWalk cs p i).2.2, isExcluded q = false) :
    ∀ (l : List FsEntry) (path : String) (indent : Nat),
      ∀ q ∈ (asyncLevel subWalk l path indent).2.2, isExcluded q = false := by
  intro l
  induction l with
  | nil => intro path indent; simp [asyncLevel]
  | cons e rest ih =>
    intro path indent
    by_cases hx : isExcluded (joinPath path (entryName e)) = true
    · rw [asyncLevel_skip_excluded subWalk e rest path indent hx]
      exact ih path indent
    · have hxf : isExcluded (joinPath path (entryName e)) = false := by
        simpa using hx
      cases e with
      | dir nm cs =>
        have hxf2 : isExcluded (joinPath path nm) = false := by
          simpa [entryName] using hxf
        have hunf : (asyncLevel subWalk (FsEntry.dir nm cs :: rest) path indent).2.2
            = (subWalk cs (joinPath path nm) (indent + 1)).2.2
                ++ (asyncLevel subWalk rest path indent).2.2 := by
          simp [asyncLevel, entryName, hxf2]
        rw [hunf]
        intro q hq
        rcases List.mem_append.mp hq with hq1 | hq2
        · exact hsub cs (joinPath path nm) (indent + 1) hxf2 q hq1
        · exact ih path indent q hq2
      | file nm c =>
        have hxf2 : isExcluded (joinPath path nm) = false := by
          simpa [entryName] using hxf
        by_cases ha : isAllowListed nm = true
        · have hunf : (asyncLevel subWalk (FsEntry.file nm c :: rest) path indent).2.2
              = joinPath path nm :: (asyncLevel subWalk rest path indent).2.2 := by
            simp [asyncLevel, entryName, hxf2, ha]
          rw [hunf]
          intro q hq
          rcases List.mem_cons.mp hq with hqeq | hq2
          · subst hqeq
            exact hxf2
          · exact ih path indent q hq2
        · have haf : isAllowListed nm = false := by simpa using ha
          have hunf : (asyncLevel subWalk (FsEntry.file nm c :: rest) path indent).2.2
              = (asyncLevel subWalk rest path indent).2.2 := by
            simp [asyncLevel, entryName, hxf2, haf]
          rw [hunf]
          exact ih path indent

theorem build_directory_tree_prd_fetch_pure :
    ∀ (fuel : Nat) (l : List FsEntry) (path : String) (indent : Nat),
      isExcluded path = false →
      ∀ q ∈ (build_directory_tree_prd fuel l path indent).2, isExcluded q = false := by
  intro fuel
  induction fuel with
  | zero =>
    intro l path indent hp q hq
    simp only [build_directory_tree_prd, List.mem_singleton] at hq
    subst hq
    exact hp
  | succ fuel ih =>
    intro l path indent hp q hq
    have hpure := prdLevel_fetch_pure (fun cs p i => build_directory_tree_prd fuel cs p i)
      (fun cs p i hpf => ih cs p i hpf) l path indent
    simp only [build_directory_tree_prd] at hq
    rcases List.mem_cons.mp hq with hqeq | hq2
    · subst hqeq
      exact hp
    · rcases List.mem_append.mp hq2 with hq3 | hq4
      · exact hpure.1 q hq3
      · rcases List.mem_flatten.mp hq4 with ⟨fs, hfs, hqfs⟩
        rcases List.mem_map.mp hfs with ⟨s, hsmem, hfseq⟩
        subst hfseq
        exact hpure.2 s hsmem q hqfs

theorem build_directory_tree_async_fetch_pure :
    ∀ (fuel : Nat) (l : List FsEntry) (path : String) (indent : Nat),
      isExcluded path = false →
      ∀ q ∈ (build_directory_tree_async fuel l path indent).2.2, isExcluded q = false := by
  intro fuel
  induction fuel with
  | zero =>
    intro l path indent hp q hq
    simp only [build_directory_tree_async, List.mem_singleton] at hq
    subst hq
    exact hp
  | succ fuel ih =>
    intro l path indent hp q hq
    simp only [build_directory_tree_async] at hq
    rcases List.mem_cons.mp hq with hqeq | hq2
    · subst hqeq
      exact hp
    · exact asyncLevel_fetch_pure (fun cs p i => build_directory_tree_async fuel cs p i)
        (fun cs p i hpf => ih cs p i hpf) l path indent q hq2

/-- C6: for every listing entry whose contents-API path contains the
excluded marker segment `.github`, both tree walkers emit no tree line,
schedule no recursion and record no fetch (processing the listing with the
entry equals processing it without the entry), and consequently a walk
rooted at a non-excluded path never issues a listing or content fetch for
any path containing the marker segment. -/
theorem excluded_segment_prunes_everything :
    (∀ (subP : List FsEntry → String → Nat → String × List String)
       (subA : List FsEntry → String → Nat → String × List String × List String)
       (e : FsEntry) (rest : List FsEntry) (path : String) (indent : Nat),
       isExcluded (joinPath path (entryName e)) = true →
         prdLevel subP (e :: rest) path indent = prdLevel subP rest path indent
         ∧ asyncLevel subA (e :: rest) path indent = asyncLevel subA rest path indent)
    ∧ (∀ (fuel : Nat) (l : List FsEntry) (path : String) (indent : Nat),
       isExcluded path = false →
         (∀ q ∈ (build_directory_tree_prd fuel l path indent).2, isExcluded q = false)
         ∧ (∀ q ∈ (build_directory_tree_async fuel l path indent).2.2, isExcluded q = false)) :=
  ⟨fun subP subA e rest path indent hx =>
     ⟨prdLevel_skip_excluded subP e rest path indent hx,
      asyncLevel_skip_excluded subA e rest path indent hx⟩,
   fun fuel l path indent hp =>
     ⟨build_directory_tree_prd_fetch_pure fuel l path indent hp,
      build_directory_tree_async_fetch_pure fuel l path indent hp⟩⟩

theorem excluded_segment_prunes_everything_witness :
    (prdLevel (fun cs p i => build_directory_tree_prd 1 cs p i)
        [FsEntry.dir ".github" [FsEntry.file "ci.py" "c"], FsEntry.file "a.py" "c"] "" 0
      = prdLevel (fun cs p i => build_directory_tree_prd 1 cs p i)
        [FsEntry.file "a.py" "c"] "" 0)
    ∧ (asyncLevel (fun cs p i => build_directory_tree_async 1 cs p i)
        [FsEntry.dir ".github" [FsEntry.file "ci.py" "c"], FsEntry.file "a.py" "c"] "" 0
      = asyncLevel (fun cs p i => build_directory_tree_async 1 cs p i)
        [FsEntry.file "a.py" "c"] "" 0)
    ∧ isExcluded "sub/x.py" = false := by
  refine ⟨?_, ?_, ?_⟩
  · exact (excluded_segment_prunes_everything.1
      (fun cs p i => build_directory_tree_prd 1 cs p i)
      (fun cs p i => build_directory_tree_async 1 cs p i)
      (FsEntry.dir ".github" [FsEntry.file "ci.py" "c"]) [FsEntry.file "a.py" "c"] "" 0
      (by decide)).1
  · exact (excluded_segment_prunes_everything.1
      (fun cs p i => build_directory_tree_prd 1 cs p i)
      (fun cs p i => build_directory_tree_async 1 cs p i)
      (FsEntry.dir ".github" [FsEntry.file "ci.py" "c"]) [FsEntry.file "a.py" "c"] "" 0
      (by decide)).2
  · exact (excluded_segment_prunes_everything.2 2
      [FsEntry.dir "sub" [FsEntry.file "x.py" "c"]] "" 0 (by decide)).1 "sub/x.py" (by decide)

/- ===================== helper lemmas for C9 ===================== -/

theorem enumFrom_filter_lt (j : Nat) :
    ∀ (l : List String) (m : Nat), j < m →
      (List.enumFrom m l).filter (fun q => q.1 == j) = [] := by
  intro l
  induction l with
  | nil => intro m _; rfl
  | cons a as ih =>
    intro m h
    rw [List.enumFrom_cons, List.filter_cons]
    have hne : ((m, a).1 == j) = false := by
      simp only [beq_eq_false_iff_ne, ne_eq]
      omega
    rw [hne]
    simp only [Bool.false_eq_true, if_false]
    exact ih (m + 1) (by omega)

theorem enumFrom_filter_get :
    ∀ (l : List String) (j m : Nat),
      (List.enumFrom m l).filter (fun q => q.1 == m + j)
        = match l.get? j with
          | some a => [(m + j, a)]
          | none => [] := by
  intro l
  induction l with
  | nil => intro j m; rfl
  | cons a as ih =>
    intro j m
    rw [List.enumFrom_cons, List.filter_cons]
    cases j with
    | zero =>
      have ht : ((m, a).1 == m + 0) = true := by simp
      rw [ht]
      simp only [if_true]
      rw [enumFrom_filter_lt (m + 0) as (m + 1) (by omega)]
      rfl
    | succ i =>
      have hf : ((m, a).1 == m + (i + 1)) = false := by
        simp only [beq_eq_false_iff_ne, ne_eq]
        omega
      rw [hf]
      simp only [Bool.false_eq_true, if_false]
      have hih := ih i (m + 1)
      rw [show m + 1 + i = m + (i + 1) from by omega] at hih
      rw [hih]
      rfl

theorem filter_eq_singleton_of_perm_enum
    (results : List String) (completed : List (Nat × String))
    (h : completed.Perm results.enum) (i : Nat) (hi : i < results.length) :
    ∃ a, results.get? i = some a
      ∧ completed.filter (fun q => q.1 == i) = [(i, a)] := by
  rcases hga : results.get? i with _ | a
  · exfalso
    rw [List.get?_eq_none] at hga
    omega
  · refine ⟨a, rfl, ?_⟩
    have hperm := h.filter (fun q => q.1 == i)
    have henum : results.enum.filter (fun q => q.1 == i) = [(i, a)] := by
      have he : results.enum = List.enumFrom 0 results := rfl
      have hg := enumFrom_filter_get results i 0
      rw [Nat.zero_add] at hg
      rw [he, hg, hga]
    rw [henum] at hperm
    exact List.perm_singleton.mp hperm

theorem range_map_getD :
    ∀ (results : List String),
      (List.range results.length).map (fun i => (results.get? i).getD "") = results := by
  intro results
  induction results with
  | nil => rfl
  | cons a as ih =>
    rw [List.length_cons, List.range_succ_eq_map, List.map_cons, List.map_map]
    have h1 : ((fun i => (((a :: as).get? i).getD "")) ∘ Nat.succ)
        = (fun i => ((as.get? i).getD "")) := by
      funext i
      rfl
    rw [h1, ih]
    rfl

theorem awaitInCreationOrder_eq_join (results : List String) (completed : List (Nat × String))
    (h : completed.Perm results.enum) :
    awaitInCreationOrder results completed = String.join results := by
  unfold awaitInCreationOrder
  have hpt : ∀ i ∈ List.range results.length,
      (((completed.filter (fun q => q.1 == i)).map Prod.snd).headD "")
        = (results.get? i).getD "" := by
    intro i hi
    rcases filter_eq_singleton_of_perm_enum results completed h i (List.mem_range.mp hi)
      with ⟨a, hga, hfil⟩
    rw [hfil, hga]
    rfl
  rw [List.map_congr_left hpt, range_map_getD]

/-- C9: for a fixed set of remote listings, the tree text assembled by the
production walker is the same whatever order the concurrently scheduled
subdirectory tasks complete in, because the pending task handles are
awaited in creation order: splicing any permutation of the indexed task
results through the await loop reproduces exactly the text of
`build_directory_tree_prd`, so any two completion orders yield equal
output. -/
theorem prd_output_independent_of_completion_order
    (fuel : Nat) (l : List FsEntry) (path : String) (indent : Nat)
    (c1 c2 : List (Nat × String))
    (h1 : c1.Perm (subTreeTexts fuel l path indent).enum)
    (h2 : c2.Perm (subTreeTexts fuel l path indent).enum) :
    ((prdLevel (fun cs p i => build_directory_tree_prd fuel cs p i) l path indent).1
        ++ awaitInCreationOrder (subTreeTexts fuel l path indent) c1
      = (build_directory_tree_prd (fuel + 1) l path indent).1)
    ∧ ((prdLevel (fun cs p i => build_directory_tree_prd fuel cs p i) l path indent).1
        ++ awaitInCreationOrder (subTreeTexts fuel l path indent) c2
      = (build_directory_tree_prd (fuel + 1) l path indent).1) := by
  constructor
  · rw [awaitInCreationOrder_eq_join _ _ h1]
    rfl
  · rw [awaitInCreationOrder_eq_join _ _ h2]
    rfl

theorem prd_output_independent_of_completion_order_witness :
    ((prdLevel (fun cs p i => build_directory_tree_prd 1 cs p i) exTwoDirs "" 0).1
        ++ awaitInCreationOrder (subTreeTexts 1 exTwoDirs "" 0)
            [(1, "    y.txt\n"), (0, "    x.txt\n")]
      = (build_directory_tree_prd 2 exTwoDirs "" 0).1)
    ∧ ((prdLevel (fun cs p i => build_directory_tree_prd 1 cs p i) exTwoDirs "" 0).1
        ++ awaitInCreationOrder (subTreeTexts 1 exTwoDirs "" 0)
            [(0, "    x.txt\n"), (1, "    y.txt\n")]
      = (build_directory_tree_prd 2 exTwoDirs "" 0).1) := by
  have h := prd_output_independent_of_completion_order 1 exTwoDirs "" 0
    [(1, "    y.txt\n"), (0, "    x.txt\n")]
    [(0, "    x.txt\n"), (1, "    y.txt\n")]
    (by decide) (by decide)
  exact ⟨h.1, h.2⟩

/- ===================== theorems for C2, C8, C10 ===================== -/

/-- C2: evaluation of the code at the failing input. The claim says the
content of every allow-listed, non-excluded file anywhere in the traversed
tree, including files inside subdirectories, is appended after the tree
section of the simple version. With a single allow-listed file inside a
subdirectory, the walker does fetch `sub/b.md` (third component), yet the
contents returned by the recursive call are discarded
(`sub_tree_str, _ = await build_directory_tree(...)`), the collected
contents list is empty, and the assembled document lists `b.md` in the
tree but carries no fenced `B` block after the tree section. -/
theorem subdirectory_contents_discarded :
    build_directory_tree_async 2 exSubContents "" 0
      = ("[sub/]\n    b.md\n", [], ["", "sub", "sub/b.md"])
    ∧ retrieve_github_repo_info_async (Except.ok "R")
        (Except.ok ((build_directory_tree_async 2 exSubContents "" 0).1,
          (build_directory_tree_async 2 exSubContents "" 0).2.1))
      = Except.ok "README.md:\n```\nR\n```\n\nDirectory Structure:\n[sub/]\n    b.md\n\n" := by
  constructor
  · rfl
  · rfl

/- ===================== helper lemmas for C8 ===================== -/

theorem string_data_append (s t : String) : (s ++ t).data = s.data ++ t.data := by
  cases s
  cases t
  rfl

theorem string_ne_empty_of_data_ne_nil (s : String) (h : s.data ≠ []) : s ≠ "" := by
  intro hc
  apply h
  rw [hc]

theorem data_append_left_ne_nil (s t : String) (h : s.data ≠ []) : (s ++ t).data ≠ [] := by
  rw [string_data_append]
  simp only [ne_eq, List.append_eq_nil, not_and]
  intro hs
  exact absurd hs h

theorem append4_ne_empty (a x b c : String) (ha : a.data ≠ []) : a ++ x ++ b ++ c ≠ "" :=
  string_ne_empty_of_data_ne_nil _
    (data_append_left_ne_nil _ _ (data_append_left_ne_nil _ _ (data_append_left_ne_nil _ _ ha)))

/-- C8 counterexample: the claim fails on the code at two points. In the
simple version a failure of the tree step is not absorbed at all: the
exception propagates out of `retrieve_github_repo_info` and no document
carrying a diagnostic line is returned. In the production version a
failure of the first try block at the pre-flight rate-limit check leaves
the semaphore unassigned, so the tree step fails with a `NameError` even
when the walk itself would succeed: the tree section is not populated,
contradicting the claimed independence of the two sections. -/
theorem assembler_absorption_fails :
    retrieve_github_repo_info_async (Except.ok "R") (Except.error "listing fetch failed")
      = Except.error "listing fetch failed"
    ∧ (retrieve_github_repo_info_prd (some "t") (Except.error "rate limit check failed")
        (Except.ok "R") (Except.ok "T")).1
      = "Failed to retrieve README.md: rate limit check failed\n\n"
        ++ "Failed to build directory tree: name \x27semaphore\x27 is not defined\n" := by
  constructor
  · rfl
  · rfl

/-- C8 amended: the production `retrieve_github_repo_info` never returns an
empty document, and when the pre-flight rate-limit check succeeds the
document decomposes into an independent README section and tree section,
each carrying either its content or a diagnostic line with the failure
description, so a README-fetch failure leaves the tree section untouched
and vice versa. In the simple version only the README step degrades
gracefully (with its fixed fallback line, the tree section and contents
unaffected); a tree failure propagates as an exception and no document is
returned. -/
theorem assembler_absorption_amended (t e d : String) (token : Option String)
    (rateGuard : Except String Unit) (readme tree : Except String String)
    (contents : List String) :
    ((retrieve_github_repo_info_prd (some t) (Except.ok ()) readme tree).1
        = prdReadmeSection readme ++ prdTreeSection tree)
    ∧ ((retrieve_github_repo_info_prd token rateGuard readme tree).1 ≠ "")
    ∧ (retrieve_github_repo_info_async (Except.error e) (Except.ok (d, contents))
        = Except.ok ("README.md: Not found or error fetching README\n\n"
            ++ "Directory Structure:\n" ++ d ++ "\n"
            ++ String.join (contents.map (fun c => "\n" ++ "```" ++ c ++ "```" ++ "\n"))))
    ∧ (retrieve_github_repo_info_async readme (Except.error e) = Except.error e) := by
  refine ⟨?_, ?_, ?_, ?_⟩
  · cases readme <;> cases tree <;> rfl
  · cases token with
    | none =>
      show ("Failed to retrieve README.md: Token is required for fetching repo content.\n\n"
          ++ "Failed to build directory tree: Token is required for building directory tree.\n") ≠ ""
      decide
    | some t2 =>
      cases rateGuard with
      | error e2 => exact append4_ne_empty _ _ _ _ (by decide)
      | ok u =>
        cases readme with
        | ok r => exact append4_ne_empty _ _ _ _ (by decide)
        | error e2 => exact append4_ne_empty _ _ _ _ (by decide)
  · rfl
  · cases readme <;> rfl

/-- C10: in the production version a call of `retrieve_github_repo_info`
without a credential performs neither the rate-limit check nor a README
fetch nor any tree traversal (the performed-step list is empty and the
result does not depend on any collaborator outcome): both try blocks raise
the token-required `ValueError` internally, and the returned document is
exactly the two diagnostic lines for the README section and the tree
section. -/
theorem no_token_no_fetch (rateGuard : Except String Unit)
    (readme tree : Except String String) :
    retrieve_github_repo_info_prd none rateGuard readme tree
      = ("Failed to retrieve README.md: Token is required for fetching repo content.\n\n"
          ++ "Failed to build directory tree: Token is required for building directory tree.\n",
         []) := rfl
